import Mathlib

/-!
Verification development for the climtas utilities: the ranking helpers of
`climtas/rank.py` and the blocked groupby / resample operations exercised by
`test/test_blocked.py`.  Arrays carry rational values; machine floats are
abstracted to `ℚ` since none of the checked properties depend on rounding.
-/

namespace Climtas

/-- Model of a plain numpy ndarray: a shape together with a total valuation of
multi-indices.  Out-of-range indices read an arbitrary default, which no
checked property depends on. -/
structure NDArray where
  shape : List ℕ
  val : List ℕ → ℚ

/-- The 1-d fiber of an array along `axis` through the multi-index `ix` (the
`axis` component of `ix` is ignored), as walked by `numpy.apply_along_axis`. -/
def NDArray.fiber (a : NDArray) (axis : ℕ) (ix : List ℕ) : List ℚ :=
  (List.range (a.shape.getD axis 0)).map (fun t => a.val (ix.set axis t))

/-- Model of `scipy.stats.rankdata` with its default `average` method: the rank
of an entry is the number of strictly smaller entries plus half of one more
than the number of equal entries, so tied entries share a fractional rank. -/
def rankdata (xs : List ℚ) : List ℚ :=
  xs.map (fun x =>
    (xs.countP (fun y => decide (y < x)) : ℚ) +
      ((xs.countP (fun y => decide (y = x)) : ℚ) + 1) / 2)

/-- Model of `numpy.apply_along_axis f axis a`: every 1-d fiber along `axis` is
replaced by `f` of that fiber; the output extent along `axis` is the length `f`
produces on a fiber. -/
def apply_along_axis (f : List ℚ → List ℚ) (axis : ℕ) (a : NDArray) : NDArray :=
  { shape := a.shape.set axis (f (a.fiber axis (List.replicate a.shape.length 0))).length
    val := fun ix => (f (a.fiber axis ix)).getD (ix.getD axis 0) 0 }

/-- Model of an `xarray.DataArray` as used by `climtas.rank`: ndarray data plus
dimension names, an optional name and string attributes. -/
structure DataArray where
  data : NDArray
  dims : List String
  name : Option String
  attrs : List (String × String)

/-- Embedding of `climtas.rank.rank_along_dim`.  The source computes
`axis = da.get_axis_num("time")` — ignoring its `dim` argument — and returns
the bare ndarray produced by `numpy.apply_along_axis(scipy.stats.rankdata,
axis, da)`; looking up a missing dimension raises, modelled as
`Except.error`. -/
def rank_along_dim (da : DataArray) (dim : String) : Except String NDArray :=
  match da.dims.findIdx? (fun d => d == "time") with
  | some axis => .ok (apply_along_axis rankdata axis da.data)
  | none => .error "dimension time does not exist"

/-! ### Calendar model

The blocked operations of `climtas.blocked` are exercised by the test suite but
the module itself is not under `src/`; the definitions below model the calendar
and the blocked operations from the specification. -/

/-- A calendar date, identified by its year and its 1-based ordinal day of the
year. -/
structure Date where
  year : ℕ
  doy : ℕ
  deriving DecidableEq, Repr

/-- Gregorian leap-year rule. -/
def isLeap (y : ℕ) : Bool :=
  (y % 4 == 0 && y % 100 != 0) || (y % 400 == 0)

/-- Number of days in a year: 366 for leap years, 365 otherwise. -/
def daysInYear (y : ℕ) : ℕ :=
  if isLeap y then 366 else 365

/-- The next calendar day. -/
def nextDate (d : Date) : Date :=
  if d.doy < daysInYear d.year then ⟨d.year, d.doy + 1⟩ else ⟨d.year + 1, 1⟩

/-- A daily time axis is regular when each entry is the calendar successor of
the previous one (no gaps, no repeats). -/
def regular : List Date → Bool
  | [] => true
  | [_] => true
  | a :: b :: rest => nextDate a == b && regular (b :: rest)

/-- All days of year `y` in calendar order. -/
def yearDates (y : ℕ) : List Date :=
  (List.range' 1 (daysInYear y)).map (fun d => ⟨y, d⟩)

/-- The daily time axis covering the `n` whole years `y0, y0+1, …`. -/
def wholeYearDates (y0 n : ℕ) : List Date :=
  ((List.range n).map (fun i => yearDates (y0 + i))).flatten

/-- Lengths of the maximal runs of equal years in a time axis (auxiliary
recursion: current year, run length so far, remaining dates). -/
def yearLensAux : ℕ → ℕ → List Date → List ℕ
  | _, c, [] => [c]
  | y, c, d :: rest =>
    if d.year = y then yearLensAux y (c + 1) rest
    else c :: yearLensAux d.year 1 rest

/-- Lengths of the maximal runs of equal years in a time axis. -/
def yearLens : List Date → List ℕ
  | [] => []
  | d :: rest => yearLensAux d.year 1 rest

/-- Whether the end points of the time axis align with year boundaries: the
axis starts on January 1 and ends on December 31. -/
def spansWholeYears (ts : List Date) : Bool :=
  match ts.head?, ts.getLast? with
  | some h, some l => h.doy == 1 && l.doy == daysInYear l.year
  | _, _ => false

/-! ### Splitting values into blocks and collecting groups -/

/-- Split a flat list of values into consecutive blocks of the given
lengths. -/
def splitBlocks : List ℕ → List ℚ → List (List ℚ)
  | [], _ => []
  | l :: ls, vals => vals.take l :: splitBlocks ls (vals.drop l)

/-- The day-of-year key sequence determined by a list of year lengths: each
year of length `l` contributes the keys `1, …, l` in order. -/
def doyKeys (lens : List ℕ) : List ℕ :=
  (lens.map (fun l => List.range' 1 l)).flatten

/-- The values sitting at offset `p` of each block that is long enough, in
block order: the cross-year sample for day-of-year `p + 1`. -/
def colAt (blocks : List (List ℚ)) (p : ℕ) : List ℚ :=
  blocks.filterMap (fun b => b[p]?)

/-- Modelled from the spec: the values of a grouped series sharing the key
`d`, in time order — the group that the underlying labelled-array library's
`groupby` reduces (`climtas` delegates to `xarray`, which is not part of the
sources). -/
def refGroupVals (d : ℕ) : List ℕ → List ℚ → List ℚ
  | k :: ks, v :: vs => (if k = d then [v] else []) ++ refGroupVals d ks vs
  | _, _ => []

/-! ### Reductions -/

/-- Sum of a list of values. -/
def lsum (xs : List ℚ) : ℚ := xs.foldr (· + ·) 0

/-- Minimum of a list of values (0 on the empty list, which never arises for
the groups considered here). -/
def lmin : List ℚ → ℚ
  | [] => 0
  | x :: xs => xs.foldl min x

/-- Maximum of a list of values (0 on the empty list). -/
def lmax : List ℚ → ℚ
  | [] => 0
  | x :: xs => xs.foldl max x

/-- Arithmetic mean of a list of values (0 on the empty list). -/
def lmean (xs : List ℚ) : ℚ := lsum xs / xs.length

/-- Modelled from the spec: the underlying labelled-array library's
groupby-by-day-of-year reduction (`xarray`'s `groupby("time.dayofyear")`
followed by a reduction, which is not part of the sources).  Day-of-year keys
lie in `1, …, 366`; the output has one `(key, reduced value)` entry per
distinct key present, in increasing key order. -/
def refGroupbyReduce (red : List ℚ → ℚ) (keys : List ℕ) (vals : List ℚ) :
    List (ℕ × ℚ) :=
  ((List.range' 1 366).filter (fun d => keys.contains d)).map
    (fun d => (d, red (refGroupVals d keys vals)))

/-! ### Blocked operations, modelled from the spec -/

/-- A one-dimensional labelled series: the name of its single dimension, its
time coordinate and its values, with the labelled-array invariant that the
coordinate and the data have the same length. -/
structure DSeries where
  dimName : String
  time : List Date
  vals : List ℚ
  hlen : time.length = vals.length

/-- Modelled from the spec: the grouped-reduction wrapper returned by
`climtas.blocked.blocked_groupby` (not in the sources) in its `dayofyear`
mode.  It holds the values re-blocked so that each block is one whole year,
and the number of day-of-year slots (366 when a leap year is present, else
365). -/
structure Grouped where
  blocks : List (List ℚ)
  numSlots : ℕ

/-- Modelled from the spec: a reduction of the grouped wrapper — one reduced
value per day-of-year slot `1, …, numSlots`, each slot reducing the values
that the years provide for that day. -/
def Grouped.reduceWith (g : Grouped) (red : List ℚ → ℚ) : List (ℕ × ℚ) :=
  (List.range' 1 g.numSlots).map (fun d => (d, red (colAt g.blocks (d - 1))))

/-- Modelled from the spec: the `min` reduction of the grouped wrapper. -/
def Grouped.minOp (g : Grouped) : List (ℕ × ℚ) := g.reduceWith lmin

/-- Modelled from the spec: the `max` reduction of the grouped wrapper. -/
def Grouped.maxOp (g : Grouped) : List (ℕ × ℚ) := g.reduceWith lmax

/-- Modelled from the spec: the `mean` reduction of the grouped wrapper. -/
def Grouped.meanOp (g : Grouped) : List (ℕ × ℚ) := g.reduceWith lmean

/-- Modelled from the spec: the `sum` reduction of the grouped wrapper. -/
def Grouped.sumOp (g : Grouped) : List (ℕ × ℚ) := g.reduceWith lsum

/-- Modelled from the spec: the subtraction operator of the grouped wrapper:
broadcasting a per-group reduced array back against the original series, each
timestamp receives its value minus the reduced value of its day-of-year
group. -/
def Grouped.subOp (g : Grouped) (clim : List (ℕ × ℚ)) : List ℚ :=
  (g.blocks.map (fun b =>
    List.zipWith (fun d v => v - ((clim.lookup d).getD 0))
      (List.range' 1 b.length) b)).flatten

/-- Number of blocks before block `j` that are long enough to contribute an
entry to the day-of-year column at offset `p`: the position of block `j`'s
entry within that column. -/
def countPrior (blocks : List (List ℚ)) (j p : ℕ) : ℕ :=
  ((blocks.take j).filter (fun b => decide (p < b.length))).length

/-- Modelled from the spec: `apply` of the grouped wrapper with a possibly
non-reducing callable: `fn` is applied to each day-of-year group's cross-year
sample and the results are scattered back to the timestamps of the group,
keeping the length and alignment of the ungrouped input. -/
def Grouped.applyOp (g : Grouped) (fn : List ℚ → List ℚ) : List ℚ :=
  (g.blocks.enum.map (fun jb =>
    (List.range jb.2.length).map (fun p =>
      (fn (colAt g.blocks p)).getD (countPrior g.blocks jb.1 p) 0))).flatten

/-- Modelled from the spec: `climtas.blocked.blocked_groupby` (not in the
sources) in its `dayofyear` mode.  It validates eagerly — the grouping name
must be a coordinate of the array, the time axis must be regular with no gaps,
and the time span must cover whole years — raising (modelled as
`Except.error`) otherwise, and returns the wrapper over the values re-blocked
into whole-year blocks. -/
def blocked_groupby (da : DSeries) (axisName : String) :
    Except String Grouped :=
  if axisName = da.dimName then
    if regular da.time then
      if spansWholeYears da.time then
        .ok ⟨splitBlocks (yearLens da.time) da.vals,
             (yearLens da.time).foldr Nat.max 0⟩
      else .error "time does not span whole years"
    else .error "time axis is not contiguous"
  else .error "axis is not a coordinate of the array"

/-- Modelled from the spec: `climtas.blocked.blocked_resample` (not in the
sources).  It validates eagerly — the named axis must be a coordinate, the
axis must be regular with no gaps, and the sample count must evenly divide the
axis length — raising otherwise, and re-blocks the values into consecutive
blocks of `n` samples. -/
def blocked_resample (da : DSeries) (axisName : String) (n : ℕ) :
    Except String (List (List ℚ)) :=
  if axisName = da.dimName then
    if regular da.time then
      if n ∣ da.time.length then
        .ok (splitBlocks (List.replicate (da.time.length / n) n) da.vals)
      else .error "samples must evenly divide the axis length"
    else .error "time axis is not contiguous"
  else .error "axis is not a coordinate of the array"

/-- Whether a blocked operation raised. -/
def isError : Except String α → Bool
  | .error _ => true
  | .ok _ => false

/-! ### Labelled ranking outputs (`rank_by_dayofyear` / `rank_by_monthday`) -/

/-- A labelled daily series as consumed by the ranking convenience wrappers:
optional name, string attributes, time coordinate and values. -/
structure LArray where
  name : Option String
  attrs : List (String × String)
  time : List Date
  vals : List ℚ

/-- Python's `str` on an optional string, as an f-string renders it: `None`
becomes the literal string `"None"`. -/
def pyStr : Option String → String
  | none => "None"
  | some s => s

/-- Read a string attribute. -/
def getAttr (attrs : List (String × String)) (k : String) : Option String :=
  (attrs.find? (fun kv => kv.1 == k)).map (fun kv => kv.2)

/-- Set a string attribute, overwriting an existing entry of the same key. -/
def setAttr (attrs : List (String × String)) (k v : String) :
    List (String × String) :=
  attrs.filter (fun kv => !(kv.1 == k)) ++ [(k, v)]

/-- Lengths of the months of year `y`. -/
def monthLengths (y : ℕ) : List ℕ :=
  [31, if isLeap y then 29 else 28, 31, 30, 31, 30, 31, 31, 30, 31, 30, 31]

/-- Turn a 1-based ordinal day of the year into the `month * 100 + day` key
(auxiliary recursion over the month lengths). -/
def monthdayAux : List ℕ → ℕ → ℕ → ℕ
  | [], m, r => m * 100 + r
  | l :: ls, m, r => if r ≤ l then m * 100 + r else monthdayAux ls (m + 1) (r - l)

/-- The `month * 100 + day` grouping key of a date (Feb 29 → 229, so leap days
keep their own bucket). -/
def monthdayKey (d : Date) : ℕ :=
  monthdayAux (monthLengths d.year) 1 d.doy

/-- The day-of-year grouping key of a date. -/
def doyKey (d : Date) : ℕ := d.doy

/-- Modelled from the spec: groupby-and-apply over a keyed time axis — the
per-timestamp scatter of `fn` applied to each group's cross-year sample, the
common core of `climtas.helpers.apply_by_dayofyear` and
`apply_by_monthday` (neither is in the sources). -/
def keyApply (key : Date → ℕ) (fn : List ℚ → List ℚ)
    (tv : List (Date × ℚ)) : List ℚ :=
  tv.enum.map (fun ip =>
    (fn ((tv.filter (fun p => key p.1 == key ip.2.1)).map (fun p => p.2))).getD
      (((tv.take ip.1).filter (fun p => key p.1 == key ip.2.1)).length) 0)

/-- Modelled from the spec: `climtas.helpers.apply_by_dayofyear` (not in the
sources): partitions the time axis by day-of-year, applies `fn` within each
bucket across years and reassembles a labelled output aligned with the input;
the array name is carried through. -/
def apply_by_dayofyear (da : LArray) (fn : List ℚ → List ℚ) : LArray :=
  { name := da.name
    attrs := da.attrs
    time := da.time
    vals := keyApply doyKey fn (da.time.zip da.vals) }

/-- Modelled from the spec: `climtas.helpers.apply_by_monthday` (not in the
sources): as `apply_by_dayofyear` but partitioning by the `month * 100 + day`
key, so Feb 29 keeps its own bucket. -/
def apply_by_monthday (da : LArray) (fn : List ℚ → List ℚ) : LArray :=
  { name := da.name
    attrs := da.attrs
    time := da.time
    vals := keyApply monthdayKey fn (da.time.zip da.vals) }

/-- Embedding of `climtas.rank.rank_by_dayofyear`: ranks within each
day-of-year bucket, then sets `name` to `f"{r.name}_rank"`,
`attrs["units"] = "1"` and `attrs["cell_methods"] = "time: rank_by_dayofyear"`
on the result. -/
def rank_by_dayofyear (da : LArray) : LArray :=
  let r := apply_by_dayofyear da rankdata
  { r with
    name := some (pyStr r.name ++ "_rank")
    attrs := setAttr (setAttr r.attrs "units" "1")
      "cell_methods" "time: rank_by_dayofyear" }

/-- Embedding of `climtas.rank.rank_by_monthday`: ranks within each
month-and-day bucket, then sets `name` to `f"{r.name}_rank"`,
`attrs["units"] = "1"` and `attrs["cell_methods"] = "time: rank_by_monthday"`
on the result. -/
def rank_by_monthday (da : LArray) : LArray :=
  let r := apply_by_monthday da rankdata
  { r with
    name := some (pyStr r.name ++ "_rank")
    attrs := setAttr (setAttr r.attrs "units" "1")
      "cell_methods" "time: rank_by_monthday" }

/-- The year lengths of the `n` whole years starting at `y0`. -/
def yearLenList (y0 n : ℕ) : List ℕ :=
  (List.range n).map (fun i => daysInYear (y0 + i))

/-- Modelled from the spec: the anomaly computed via the underlying
labelled-array library — each timestamp's value minus the mean of the values
sharing its group key (`xarray`'s `groupby - climatology`, not in the
sources). -/
def refGroupbyDelta (keys : List ℕ) (vals : List ℚ) : List ℚ :=
  List.zipWith (fun k v => v - lmean (refGroupVals k keys vals)) keys vals

/-! ### Concrete example inputs used by witnesses and counterexamples -/

/-- A 2×2 array with dimensions `lat` and `time`, rows `[1, 2]` and
`[4, 3]`. -/
def exArr2 : DataArray :=
  { data :=
      { shape := [2, 2]
        val := fun ix =>
          if ix = [0, 0] then 1
          else if ix = [0, 1] then 2
          else if ix = [1, 0] then 4
          else if ix = [1, 1] then 3
          else 0 }
    dims := ["lat", "time"]
    name := none
    attrs := [] }

/-- A 1-d array over the single dimension `time` with values `[5, 7]`. -/
def exArrT : DataArray :=
  { data := { shape := [2], val := fun ix => if ix = [0] then 5 else 7 }
    dims := ["time"]
    name := none
    attrs := [] }

/-- A labelled series with no name. -/
def exLNone : LArray := ⟨none, [], [], []⟩

/-- A labelled series named `t2m` carrying a `units` attribute. -/
def exLNamed : LArray := ⟨some "t2m", [("units", "K")], [], []⟩

set_option maxRecDepth 8192 in
/-- A whole-year daily series of zeros over the non-leap year 2001. -/
def exSeries : DSeries :=
  { dimName := "time"
    time := wholeYearDates 2001 1
    vals := List.replicate 365 0
    hlen := by decide }

/-! ### Helper lemmas about the ranking embedding -/

theorem rankdata_length (xs : List ℚ) : (rankdata xs).length = xs.length := by
  simp [rankdata]

theorem fiber_length (a : NDArray) (axis : ℕ) (ix : List ℕ) :
    (a.fiber axis ix).length = a.shape.getD axis 0 := by
  simp [NDArray.fiber]

theorem list_set_getD_self (l : List ℕ) (i : ℕ) : l.set i (l[i]?.getD 0) = l := by
  induction l generalizing i with
  | nil => rfl
  | cons a l ih =>
    cases i with
    | zero => simp
    | succ n => simp [ih]

theorem apply_along_axis_shape (f : List ℚ → List ℚ)
    (hf : ∀ xs, (f xs).length = xs.length) (axis : ℕ) (a : NDArray) :
    (apply_along_axis f axis a).shape = a.shape := by
  simp [apply_along_axis, hf, fiber_length, list_set_getD_self]

theorem find?_filter_of_imp (p q : α → Bool) (l : List α)
    (h : ∀ x, p x = true → q x = true) :
    (l.filter q).find? p = l.find? p := by
  induction l with
  | nil => rfl
  | cons a l ih =>
    cases hp : p a with
    | true =>
      have hq : q a = true := h a hp
      simp only [List.filter_cons_of_pos hq, List.find?, hp]
    | false =>
      by_cases hq : q a = true
      · simp only [List.filter_cons_of_pos hq, List.find?, hp]
        exact ih
      · have hq2 : ¬ q a = true := hq
        simp only [List.filter_cons_of_neg hq2, List.find?, hp]
        exact ih

theorem getAttr_setAttr_self (attrs : List (String × String)) (k v : String) :
    getAttr (setAttr attrs k v) k = some v := by
  unfold getAttr setAttr
  rw [List.find?_append]
  have h1 : (attrs.filter (fun kv => !(kv.1 == k))).find?
      (fun kv => kv.1 == k) = none := by
    rw [List.find?_eq_none]
    intro x hx
    simpa using (List.mem_filter.mp hx).2
  rw [h1]
  simp

theorem getAttr_setAttr_ne (attrs : List (String × String)) (k k2 v : String)
    (h : k ≠ k2) :
    getAttr (setAttr attrs k v) k2 = getAttr attrs k2 := by
  unfold getAttr setAttr
  rw [List.find?_append]
  have h2 : List.find? (fun kv => kv.1 == k2) [(k, v)] = none := by
    simp [h]
  have h3 : (attrs.filter (fun kv => !(kv.1 == k))).find?
      (fun kv => kv.1 == k2) = attrs.find? (fun kv => kv.1 == k2) := by
    refine find?_filter_of_imp _ _ _ (fun x hx => ?_)
    have hx2 : x.1 = k2 := by simpa using hx
    simp [hx2, Ne.symm h]
  rw [h2, h3]
  simp

/-! ### Claim theorems for the ranking functions -/

/-- C8: for every input array and any two dimension-name arguments, the two
calls to `rank_along_dim` return the same result — the `dim` argument is never
consulted, because the source hardcodes the axis of `"time"`. -/
theorem rank_along_dim_independent_of_dim (da : DataArray) (d1 d2 : String) :
    rank_along_dim da d1 = rank_along_dim da d2 := rfl

/-- C3, evaluation at the failing input: on the 2×2 array `exArr2` with rows
`[1, 2]` and `[4, 3]` over dimensions `["lat", "time"]`, asking for ranking
along `"lat"` still ranks along `"time"` (the value at `[1, 1]` is `1`, the
rank of `3` within its row `[4, 3]`), whereas ranking along the axis of
`"lat"` as the claim demands would give `2` (the rank of `3` within its column
`[2, 3]`); moreover asking for a dimension that does not exist raises no
error, against the claim, as long as `"time"` is present. -/
theorem rank_along_dim_uses_time_not_dim :
    (∃ a, rank_along_dim exArr2 "lat" = .ok a ∧ a.val [1, 1] = 1) ∧
    (apply_along_axis rankdata 0 exArr2.data).val [1, 1] = 2 ∧
    (∃ b, rank_along_dim exArr2 "nosuchdim" = .ok b) := by
  refine ⟨⟨apply_along_axis rankdata 1 exArr2.data, rfl, ?_⟩, ?_,
    ⟨apply_along_axis rankdata 1 exArr2.data, rfl⟩⟩ <;>
    norm_num [apply_along_axis, NDArray.fiber, exArr2, rankdata, List.countP,
      List.countP.go, List.range, List.range.loop]

/-- C9: whenever the input has a `"time"` dimension, `rank_along_dim` returns
a bare ndarray (an `NDArray`, carrying no dimension names, coordinates or
attributes) whose shape equals the shape of the input's data — one rank per
input element. -/
theorem rank_along_dim_plain_array_shape (da : DataArray) (dim : String)
    (h : "time" ∈ da.dims) :
    ∃ a : NDArray, rank_along_dim da dim = .ok a ∧ a.shape = da.data.shape := by
  rcases hidx : da.dims.findIdx? (fun d => d == "time") with _ | i
  · exact absurd (List.findIdx?_eq_none_iff.mp hidx "time" h) (by simp)
  · refine ⟨_, ?_, apply_along_axis_shape rankdata rankdata_length i da.data⟩
    unfold rank_along_dim
    rw [hidx]

/-- Witness for C9 at the concrete array `exArrT`. -/
theorem rank_along_dim_plain_array_shape_witness :
    ∃ a : NDArray, rank_along_dim exArrT "time" = .ok a ∧
      a.shape = exArrT.data.shape :=
  rank_along_dim_plain_array_shape exArrT "time" (by simp [exArrT])

/-- C10: when the grouped intermediate carries no name, the ranking wrappers
return the literal name `"None_rank"` — the f-string formats Python's `None`
rather than failing. -/
theorem rank_name_none_formats (da : LArray) (h : da.name = none) :
    (rank_by_dayofyear da).name = some "None_rank" ∧
    (rank_by_monthday da).name = some "None_rank" := by
  constructor <;>
    simp [rank_by_dayofyear, rank_by_monthday, apply_by_dayofyear,
      apply_by_monthday, h, pyStr]

/-- Witness for C10 at the concrete unnamed series `exLNone`. -/
theorem rank_name_none_formats_witness :
    (rank_by_dayofyear exLNone).name = some "None_rank" ∧
    (rank_by_monthday exLNone).name = some "None_rank" :=
  rank_name_none_formats exLNone rfl

/-- C4, counterexample: on the unnamed series `exLNone` there is no original
name `s` such that the output name is `s ++ "_rank"` — the output name is the
literal `"None_rank"` instead, so the claim fails as stated for unnamed
inputs. -/
theorem rank_metadata_counterexample :
    (¬ ∃ s, exLNone.name = some s ∧
        (rank_by_dayofyear exLNone).name = some (s ++ "_rank")) ∧
    (rank_by_dayofyear exLNone).name = some "None_rank" := by
  constructor
  · rintro ⟨s, hs, -⟩
    exact Option.noConfusion hs
  · rfl

/-- C4, amended: when the input carries a (string) name `s`, both ranking
wrappers name their output `s ++ "_rank"`; and for every input the outputs
carry `attrs["units"] = "1"` and `attrs["cell_methods"]` naming the grouping
method. -/
theorem rank_metadata (da : LArray) :
    (∀ s, da.name = some s →
        (rank_by_dayofyear da).name = some (s ++ "_rank") ∧
        (rank_by_monthday da).name = some (s ++ "_rank")) ∧
    getAttr (rank_by_dayofyear da).attrs "units" = some "1" ∧
    getAttr (rank_by_dayofyear da).attrs "cell_methods" =
      some "time: rank_by_dayofyear" ∧
    getAttr (rank_by_monthday da).attrs "units" = some "1" ∧
    getAttr (rank_by_monthday da).attrs "cell_methods" =
      some "time: rank_by_monthday" := by
  refine ⟨fun s hs => ?_, ?_, ?_, ?_, ?_⟩
  · constructor <;>
      simp [rank_by_dayofyear, rank_by_monthday, apply_by_dayofyear,
        apply_by_monthday, hs, pyStr]
  · rw [show (rank_by_dayofyear da).attrs =
        setAttr (setAttr (apply_by_dayofyear da rankdata).attrs "units" "1")
          "cell_methods" "time: rank_by_dayofyear" from rfl,
      getAttr_setAttr_ne _ _ _ _ (by decide), getAttr_setAttr_self]
  · rw [show (rank_by_dayofyear da).attrs =
        setAttr (setAttr (apply_by_dayofyear da rankdata).attrs "units" "1")
          "cell_methods" "time: rank_by_dayofyear" from rfl,
      getAttr_setAttr_self]
  · rw [show (rank_by_monthday da).attrs =
        setAttr (setAttr (apply_by_monthday da rankdata).attrs "units" "1")
          "cell_methods" "time: rank_by_monthday" from rfl,
      getAttr_setAttr_ne _ _ _ _ (by decide), getAttr_setAttr_self]
  · rw [show (rank_by_monthday da).attrs =
        setAttr (setAttr (apply_by_monthday da rankdata).attrs "units" "1")
          "cell_methods" "time: rank_by_monthday" from rfl,
      getAttr_setAttr_self]

/-- Witness for the amended C4 at the concrete named series `exLNamed`: the
pre-existing `units` attribute is overwritten by `"1"`. -/
theorem rank_metadata_witness :
    (rank_by_dayofyear exLNamed).name = some "t2m_rank" ∧
    getAttr (rank_by_dayofyear exLNamed).attrs "units" = some "1" ∧
    getAttr (rank_by_monthday exLNamed).attrs "cell_methods" =
      some "time: rank_by_monthday" :=
  ⟨((rank_metadata exLNamed).1 "t2m" rfl).1, (rank_metadata exLNamed).2.1,
    (rank_metadata exLNamed).2.2.2.2⟩

/-! ### Calendar lemmas -/

theorem daysInYear_pos (y : ℕ) : 1 ≤ daysInYear y := by
  unfold daysInYear
  split <;> omega

theorem daysInYear_le (y : ℕ) : daysInYear y ≤ 366 := by
  unfold daysInYear
  split <;> omega

theorem regular_cons_cons (a b : Date) (l : List Date) :
    regular (a :: b :: l) = (nextDate a == b && regular (b :: l)) := rfl

theorem regular_append (xs ys : List Date) (hx : regular xs = true)
    (hy : regular ys = true)
    (hlink : ∀ a b, xs.getLast? = some a → ys.head? = some b → nextDate a = b) :
    regular (xs ++ ys) = true := by
  induction xs with
  | nil => simpa using hy
  | cons a xs' ih =>
    cases xs' with
    | nil =>
      cases ys with
      | nil => rfl
      | cons b ys' =>
        have hab : nextDate a = b := hlink a b rfl rfl
        show regular (a :: b :: ys') = true
        rw [regular_cons_cons, hab]
        simpa using hy
    | cons a2 xs'' =>
      rw [List.cons_append, List.cons_append, regular_cons_cons]
      rw [regular_cons_cons] at hx
      have h1 : (nextDate a == a2) = true := by
        cases hb : (nextDate a == a2)
        · rw [hb] at hx; simp at hx
        · rfl
      have h2 : regular (a2 :: xs'') = true := by
        cases hb : regular (a2 :: xs'')
        · rw [hb] at hx; simp at hx
        · rfl
      have h3 : regular ((a2 :: xs'') ++ ys) = true := by
        refine ih h2 (fun c d hc hd => hlink c d ?_ hd)
        rwa [List.getLast?_cons_cons]
      rw [h1]
      simp only [Bool.true_and]
      exact h3

theorem regular_range'_map (y : ℕ) :
    ∀ (L s : ℕ), 1 ≤ s → s + L ≤ daysInYear y + 1 →
    regular ((List.range' s L).map (fun d => (⟨y, d⟩ : Date))) = true := by
  intro L
  induction L with
  | zero => intro s _ _; rfl
  | succ L ih =>
    intro s hs hb
    rw [List.range'_succ, List.map_cons]
    cases L with
    | zero => rfl
    | succ L' =>
      have htail := ih (s + 1) (by omega) (by omega)
      rw [List.range'_succ, List.map_cons] at htail ⊢
      have h1 : nextDate ⟨y, s⟩ = ⟨y, s + 1⟩ := by
        unfold nextDate
        rw [if_pos (show s < daysInYear y by omega)]
      rw [regular_cons_cons, h1, htail]
      simp

theorem regular_yearDates (y : ℕ) : regular (yearDates y) = true :=
  regular_range'_map y (daysInYear y) 1 (le_refl 1) (by omega)

theorem length_yearDates (y : ℕ) : (yearDates y).length = daysInYear y := by
  simp [yearDates]

theorem year_of_mem_yearDates (y : ℕ) (e : Date) (h : e ∈ yearDates y) :
    e.year = y := by
  simp only [yearDates, List.mem_map] at h
  obtain ⟨d, -, rfl⟩ := h
  rfl

theorem head?_yearDates (y : ℕ) : (yearDates y).head? = some ⟨y, 1⟩ := by
  obtain ⟨k, hk⟩ : ∃ k, daysInYear y = k + 1 :=
    ⟨daysInYear y - 1, by have := daysInYear_pos y; omega⟩
  rw [yearDates, hk, List.range'_succ, List.map_cons]
  rfl

theorem getLast?_yearDates (y : ℕ) :
    (yearDates y).getLast? = some ⟨y, daysInYear y⟩ := by
  obtain ⟨k, hk⟩ : ∃ k, daysInYear y = k + 1 :=
    ⟨daysInYear y - 1, by have := daysInYear_pos y; omega⟩
  rw [yearDates, hk, List.range'_concat, List.map_append, List.map_singleton,
    List.getLast?_concat]
  have h1k : 1 + 1 * k = k + 1 := by omega
  rw [h1k]

theorem wholeYearDates_succ (y0 n : ℕ) :
    wholeYearDates y0 (n + 1) = yearDates y0 ++ wholeYearDates (y0 + 1) n := by
  unfold wholeYearDates
  rw [List.range_succ_eq_map, List.map_cons, List.flatten_cons, List.map_map]
  have hmap : List.map ((fun i => yearDates (y0 + i)) ∘ Nat.succ) (List.range n)
      = List.map (fun i => yearDates (y0 + 1 + i)) (List.range n) := by
    apply List.map_congr_left
    intro i _
    simp only [Function.comp_apply]
    congr 1
    omega
  rw [hmap]
  rfl

theorem regular_wholeYearDates (y0 n : ℕ) :
    regular (wholeYearDates y0 n) = true := by
  induction n generalizing y0 with
  | zero => rfl
  | succ n ih =>
    rw [wholeYearDates_succ]
    refine regular_append _ _ (regular_yearDates y0) (ih (y0 + 1)) ?_
    intro a b ha hb
    rw [getLast?_yearDates] at ha
    cases n with
    | zero => simp [wholeYearDates] at hb
    | succ m =>
      rw [wholeYearDates_succ, List.head?_append, head?_yearDates] at hb
      simp only [Option.or] at hb
      cases ha
      cases hb
      unfold nextDate
      rw [if_neg (by simp)]

theorem head?_wholeYearDates (y0 n : ℕ) (h : 1 ≤ n) :
    (wholeYearDates y0 n).head? = some ⟨y0, 1⟩ := by
  cases n with
  | zero => omega
  | succ m =>
    rw [wholeYearDates_succ, List.head?_append, head?_yearDates]
    rfl

theorem getLast?_wholeYearDates (y0 n : ℕ) (h : 1 ≤ n) :
    (wholeYearDates y0 n).getLast? =
      some ⟨y0 + n - 1, daysInYear (y0 + n - 1)⟩ := by
  cases n with
  | zero => omega
  | succ m =>
    induction m generalizing y0 with
    | zero =>
      rw [wholeYearDates_succ]
      show (yearDates y0 ++ []).getLast? = _
      rw [List.append_nil, getLast?_yearDates]
      simp
    | succ m ih =>
      rw [wholeYearDates_succ, List.getLast?_append,
        ih (y0 + 1) (by omega)]
      have harg : y0 + 1 + (m + 1) - 1 = y0 + (m + 1 + 1) - 1 := by omega
      simp only [Option.or]
      rw [harg]

theorem spansWholeYears_wholeYearDates (y0 n : ℕ) (h : 1 ≤ n) :
    spansWholeYears (wholeYearDates y0 n) = true := by
  unfold spansWholeYears
  rw [head?_wholeYearDates y0 n h, getLast?_wholeYearDates y0 n h]
  simp

theorem length_wholeYearDates (y0 n : ℕ) :
    (wholeYearDates y0 n).length = (yearLenList y0 n).sum := by
  unfold wholeYearDates yearLenList
  rw [List.length_flatten, List.map_map]
  congr 1
  apply List.map_congr_left
  intro i _
  simp [length_yearDates]

theorem yearLensAux_append (y : ℕ) (xs : List Date) :
    ∀ (c : ℕ) (ys : List Date), (∀ e ∈ xs, e.year = y) →
    (∀ e, ys.head? = some e → e.year ≠ y) →
    yearLensAux y c (xs ++ ys) = (c + xs.length) :: yearLens ys := by
  induction xs with
  | nil =>
    intro c ys _ hy
    cases ys with
    | nil => simp [yearLensAux, yearLens]
    | cons e ys' =>
      have he : e.year ≠ y := hy e rfl
      simp [yearLensAux, he, yearLens]
  | cons x xs' ih =>
    intro c ys hx hy
    have hxy : x.year = y := hx x (List.mem_cons_self x xs')
    rw [List.cons_append]
    show yearLensAux y c (x :: (xs' ++ ys)) = _
    rw [yearLensAux, if_pos hxy,
      ih (c + 1) ys (fun e he => hx e (List.mem_cons_of_mem x he)) hy]
    congr 1
    rw [List.length_cons]
    omega

theorem yearLens_wholeYearDates (y0 n : ℕ) :
    yearLens (wholeYearDates y0 n) = yearLenList y0 n := by
  induction n generalizing y0 with
  | zero => rfl
  | succ m ih =>
    rw [wholeYearDates_succ]
    obtain ⟨k, hk⟩ : ∃ k, daysInYear y0 = k + 1 :=
      ⟨daysInYear y0 - 1, by have := daysInYear_pos y0; omega⟩
    have hhd : ∃ t, yearDates y0 = Date.mk y0 1 :: t := by
      refine ⟨(List.range' 2 k).map (fun d => ⟨y0, d⟩), ?_⟩
      rw [yearDates, hk, List.range'_succ, List.map_cons]
    obtain ⟨t, hts⟩ := hhd
    rw [hts, List.cons_append, yearLens]
    have hxt : ∀ e ∈ t, e.year = y0 := by
      intro e he
      refine year_of_mem_yearDates y0 e ?_
      rw [hts]
      exact List.mem_cons_of_mem _ he
    have hyy : ∀ e, (wholeYearDates (y0 + 1) m).head? = some e →
        e.year ≠ y0 := by
      intro e he
      cases m with
      | zero => simp [wholeYearDates] at he
      | succ m' =>
        rw [head?_wholeYearDates (y0 + 1) (m' + 1) (by omega)] at he
        cases he
        simp
    rw [yearLensAux_append y0 t 1 (wholeYearDates (y0 + 1) m) hxt hyy]
    rw [ih (y0 + 1)]
    have hlen : 1 + t.length = daysInYear y0 := by
      have := length_yearDates y0
      rw [hts] at this
      simp at this
      omega
    unfold yearLenList
    rw [List.range_succ_eq_map, List.map_cons, List.map_map]
    have hmap2 : List.map ((fun i => daysInYear (y0 + i)) ∘ Nat.succ)
        (List.range m) = List.map (fun i => daysInYear (y0 + 1 + i))
        (List.range m) := by
      apply List.map_congr_left
      intro i _
      simp only [Function.comp_apply]
      congr 1
      omega
    rw [hmap2]
    congr 1

/-! ### Correspondence between the reference groups and the year columns -/

theorem refGroupVals_nil_keys (d : ℕ) (vs : List ℚ) :
    refGroupVals d [] vs = [] := by
  cases vs <;> rfl

theorem refGroupVals_range'_append (d : ℕ) :
    ∀ (L s : ℕ) (vs : List ℚ) (ks : List ℕ), L ≤ vs.length →
    refGroupVals d (List.range' s L ++ ks) vs =
      (if s ≤ d ∧ d < s + L then [vs.getD (d - s) 0] else []) ++
        refGroupVals d ks (vs.drop L) := by
  intro L
  induction L with
  | zero =>
    intro s vs ks _
    rw [if_neg (by omega)]
    simp
  | succ L ih =>
    intro s vs ks h
    cases vs with
    | nil => simp at h
    | cons v vs' =>
      rw [List.range'_succ, List.cons_append]
      show (if s = d then [v] else []) ++
          refGroupVals d (List.range' (s + 1) L ++ ks) vs' = _
      rw [ih (s + 1) vs' ks (by simpa using h)]
      by_cases hd : s = d
      · subst hd
        rw [if_pos rfl, if_neg (by omega), if_pos (show s ≤ s ∧ s < s + (L + 1) by omega)]
        simp
      · rw [if_neg hd]
        by_cases hd2 : s + 1 ≤ d ∧ d < s + 1 + L
        · rw [if_pos hd2, if_pos (by omega)]
          obtain ⟨j, hj⟩ : ∃ j, d - s = j + 1 := ⟨d - s - 1, by omega⟩
          have hj2 : d - (s + 1) = j := by omega
          rw [hj2, hj, List.getD_cons_succ]
          simp
        · rw [if_neg hd2, if_neg (by omega)]
          simp

theorem colAt_cons_some (b : List ℚ) (bs : List (List ℚ)) (p : ℕ) (v : ℚ)
    (h : b[p]? = some v) : colAt (b :: bs) p = v :: colAt bs p := by
  simp [colAt, List.filterMap_cons, h]

theorem colAt_cons_none (b : List ℚ) (bs : List (List ℚ)) (p : ℕ)
    (h : b[p]? = none) : colAt (b :: bs) p = colAt bs p := by
  simp [colAt, List.filterMap_cons, h]

theorem refGroup_eq_colAt :
    ∀ (lens : List ℕ) (vals : List ℚ) (d : ℕ), 1 ≤ d →
    lens.sum ≤ vals.length →
    refGroupVals d (doyKeys lens) vals = colAt (splitBlocks lens vals) (d - 1) := by
  intro lens
  induction lens with
  | nil =>
    intro vals d _ _
    rw [show doyKeys [] = [] from rfl, refGroupVals_nil_keys]
    rfl
  | cons L ls ih =>
    intro vals d hd h
    have hsum : L + ls.sum ≤ vals.length := by simpa [List.sum_cons] using h
    have hkeys : doyKeys (L :: ls) = List.range' 1 L ++ doyKeys ls := by
      simp [doyKeys]
    rw [hkeys, refGroupVals_range'_append d L 1 vals (doyKeys ls) (by omega)]
    rw [show splitBlocks (L :: ls) vals =
        vals.take L :: splitBlocks ls (vals.drop L) from rfl]
    by_cases hcase : d < 1 + L
    · have hvl : d - 1 < vals.length := by omega
      have htake : (vals.take L)[d - 1]? = some (vals.getD (d - 1) 0) := by
        rw [List.getElem?_take, if_pos (by omega),
          List.getD_eq_getElem?_getD, List.getElem?_eq_getElem hvl]
        rfl
      rw [if_pos (⟨hd, hcase⟩ : 1 ≤ d ∧ d < 1 + L),
        colAt_cons_some _ _ _ _ htake,
        ih (vals.drop L) d hd (by rw [List.length_drop]; omega)]
      simp
    · have htake : (vals.take L)[d - 1]? = none := by
        rw [List.getElem?_take, if_neg (by omega)]
      rw [if_neg (by omega), colAt_cons_none _ _ _ htake,
        ih (vals.drop L) d hd (by rw [List.length_drop]; omega)]
      simp

theorem mem_doyKeys (lens : List ℕ) (d : ℕ) (hd : 1 ≤ d) :
    d ∈ doyKeys lens ↔ ∃ L ∈ lens, d ≤ L := by
  unfold doyKeys
  rw [List.mem_flatten]
  constructor
  · rintro ⟨l, hl, hdl⟩
    rw [List.mem_map] at hl
    obtain ⟨L, hL, rfl⟩ := hl
    rw [List.mem_range'] at hdl
    obtain ⟨i, hi, rfl⟩ := hdl
    exact ⟨L, hL, by omega⟩
  · rintro ⟨L, hL, hdL⟩
    refine ⟨List.range' 1 L, List.mem_map.mpr ⟨L, hL, rfl⟩, ?_⟩
    rw [List.mem_range']
    exact ⟨d - 1, by omega, by omega⟩

theorem le_foldr_max (lens : List ℕ) (d : ℕ) :
    d ≤ lens.foldr Nat.max 0 ∧ 1 ≤ d ↔ (∃ L ∈ lens, d ≤ L) ∧ 1 ≤ d := by
  induction lens with
  | nil => simp
  | cons L ls ih =>
    rw [List.foldr_cons]
    constructor
    · rintro ⟨h, hd⟩
      rcases le_max_iff.mp h with h1 | h2
      · exact ⟨⟨L, List.mem_cons_self _ _, h1⟩, hd⟩
      · obtain ⟨⟨L2, hL2, hd2⟩, -⟩ := ih.mp ⟨h2, hd⟩
        exact ⟨⟨L2, List.mem_cons_of_mem _ hL2, hd2⟩, hd⟩
    · rintro ⟨⟨L2, hL2, hd2⟩, hd⟩
      rcases List.mem_cons.mp hL2 with rfl | hmem
      · exact ⟨le_max_iff.mpr (Or.inl hd2), hd⟩
      · exact ⟨le_max_iff.mpr (Or.inr (ih.mpr ⟨⟨L2, hmem, hd2⟩, hd⟩).1), hd⟩

theorem foldr_max_le (lens : List ℕ) (b : ℕ) (h : ∀ L ∈ lens, L ≤ b) :
    lens.foldr Nat.max 0 ≤ b := by
  induction lens with
  | nil => simp
  | cons L ls ih =>
    rw [List.foldr_cons]
    exact max_le (h L (List.mem_cons_self _ _))
      (ih (fun L2 hL2 => h L2 (List.mem_cons_of_mem _ hL2)))

theorem keysFilter (lens : List ℕ) (hb : ∀ L ∈ lens, L ≤ 366) :
    (List.range' 1 366).filter (fun d => (doyKeys lens).contains d) =
      List.range' 1 (lens.foldr Nat.max 0) := by
  have hM : lens.foldr Nat.max 0 ≤ 366 := foldr_max_le lens 366 hb
  have hsplit : List.range' 1 (lens.foldr Nat.max 0) ++
      List.range' (1 + lens.foldr Nat.max 0) (366 - lens.foldr Nat.max 0) =
      List.range' 1 366 := by
    have h2 := List.range'_append 1 (lens.foldr Nat.max 0)
      (366 - lens.foldr Nat.max 0) 1
    rw [one_mul] at h2
    rw [h2]
    congr 1
    omega
  rw [← hsplit, List.filter_append]
  have h1 : (List.range' 1 (lens.foldr Nat.max 0)).filter
      (fun d => (doyKeys lens).contains d) =
      List.range' 1 (lens.foldr Nat.max 0) := by
    rw [List.filter_eq_self]
    intro a ha
    rw [List.mem_range'] at ha
    obtain ⟨i, hi, rfl⟩ := ha
    refine List.elem_iff.mpr ?_
    rw [mem_doyKeys lens _ (by omega)]
    exact ((le_foldr_max lens _).mp ⟨by omega, by omega⟩).1
  have h2 : (List.range' (1 + lens.foldr Nat.max 0)
      (366 - lens.foldr Nat.max 0)).filter
      (fun d => (doyKeys lens).contains d) = [] := by
    rw [List.filter_eq_nil_iff]
    intro a ha
    rw [List.mem_range'] at ha
    obtain ⟨i, hi, rfl⟩ := ha
    intro hcon
    have hmem := List.elem_iff.mp hcon
    rw [mem_doyKeys lens _ (by omega)] at hmem
    have := ((le_foldr_max lens _).mpr ⟨hmem, by omega⟩).1
    omega
  rw [h1, h2, List.append_nil]

theorem map_doy_wholeYearDates (y0 n : ℕ) :
    (wholeYearDates y0 n).map doyKey = doyKeys (yearLenList y0 n) := by
  unfold wholeYearDates doyKeys yearLenList
  rw [List.map_flatten, List.map_map, List.map_map]
  congr 1
  apply List.map_congr_left
  intro i _
  simp only [Function.comp_apply]
  rw [yearDates, List.map_map]
  have hcomp : (doyKey ∘ fun d => (⟨y0 + i, d⟩ : Date)) = id := by
    funext d
    rfl
  rw [hcomp, List.map_id]

theorem blocked_groupby_wholeYears (da : DSeries) (y0 n : ℕ) (h1 : 1 ≤ n)
    (ht : da.time = wholeYearDates y0 n) :
    blocked_groupby da da.dimName =
      .ok ⟨splitBlocks (yearLenList y0 n) da.vals,
           (yearLenList y0 n).foldr Nat.max 0⟩ := by
  unfold blocked_groupby
  rw [if_pos rfl, ht, if_pos (regular_wholeYearDates y0 n),
    if_pos (spansWholeYears_wholeYearDates y0 n h1),
    yearLens_wholeYearDates]

theorem reduceWith_eq_ref (red : List ℚ → ℚ) (da : DSeries) (y0 n : ℕ)
    (ht : da.time = wholeYearDates y0 n) :
    Grouped.reduceWith ⟨splitBlocks (yearLenList y0 n) da.vals,
        (yearLenList y0 n).foldr Nat.max 0⟩ red =
      refGroupbyReduce red (da.time.map doyKey) da.vals := by
  have hsum : (yearLenList y0 n).sum ≤ da.vals.length := by
    have h2 := da.hlen
    rw [ht, length_wholeYearDates] at h2
    omega
  have hbound : ∀ L ∈ yearLenList y0 n, L ≤ 366 := by
    intro L hL
    unfold yearLenList at hL
    rw [List.mem_map] at hL
    obtain ⟨i, -, rfl⟩ := hL
    exact daysInYear_le _
  rw [ht, map_doy_wholeYearDates]
  unfold Grouped.reduceWith refGroupbyReduce
  rw [keysFilter _ hbound]
  apply List.map_congr_left
  intro d hd
  rw [List.mem_range'] at hd
  obtain ⟨i, hi, rfl⟩ := hd
  rw [refGroup_eq_colAt (yearLenList y0 n) da.vals (1 + 1 * i) (by omega) hsum]

/-- C1: for every regular daily series spanning whole years, the blocked
groupby over day-of-year followed by each of the four reductions equals the
underlying library's groupby-by-day-of-year with the same reduction. -/
theorem blocked_groupby_dayofyear_refines (da : DSeries) (y0 n : ℕ)
    (h1 : 1 ≤ n) (ht : da.time = wholeYearDates y0 n) :
    ∃ g, blocked_groupby da da.dimName = .ok g ∧
      g.minOp = refGroupbyReduce lmin (da.time.map doyKey) da.vals ∧
      g.maxOp = refGroupbyReduce lmax (da.time.map doyKey) da.vals ∧
      g.meanOp = refGroupbyReduce lmean (da.time.map doyKey) da.vals ∧
      g.sumOp = refGroupbyReduce lsum (da.time.map doyKey) da.vals :=
  ⟨_, blocked_groupby_wholeYears da y0 n h1 ht,
    reduceWith_eq_ref lmin da y0 n ht, reduceWith_eq_ref lmax da y0 n ht,
    reduceWith_eq_ref lmean da y0 n ht, reduceWith_eq_ref lsum da y0 n ht⟩

/-- Witness for C1 at the concrete whole-year series `exSeries`. -/
theorem blocked_groupby_dayofyear_refines_witness :
    ∃ g, blocked_groupby exSeries exSeries.dimName = .ok g ∧
      g.minOp = refGroupbyReduce lmin (exSeries.time.map doyKey) exSeries.vals ∧
      g.maxOp = refGroupbyReduce lmax (exSeries.time.map doyKey) exSeries.vals ∧
      g.meanOp = refGroupbyReduce lmean (exSeries.time.map doyKey) exSeries.vals ∧
      g.sumOp = refGroupbyReduce lsum (exSeries.time.map doyKey) exSeries.vals :=
  blocked_groupby_dayofyear_refines exSeries 2001 1 (by omega) rfl

/-! ### The anomaly (climatology subtraction) equivalence -/

theorem zipWith_sub_congr (m1 m2 : ℕ → ℚ) :
    ∀ (l : List ℕ) (w : List ℚ), (∀ d ∈ l, m1 d = m2 d) →
    List.zipWith (fun d v => v - m1 d) l w =
      List.zipWith (fun d v => v - m2 d) l w := by
  intro l
  induction l with
  | nil => intro w _; rfl
  | cons d l ih =>
    intro w h
    cases w with
    | nil => rfl
    | cons v w2 =>
      rw [List.zipWith_cons_cons, List.zipWith_cons_cons,
        h d (List.mem_cons_self _ _),
        ih w2 (fun e he => h e (List.mem_cons_of_mem _ he))]

theorem subOp_structure (m1 m2 : ℕ → ℚ) :
    ∀ (lens : List ℕ) (vals : List ℚ), lens.sum ≤ vals.length →
    (∀ d L, L ∈ lens → 1 ≤ d → d ≤ L → m1 d = m2 d) →
    ((splitBlocks lens vals).map (fun b =>
        List.zipWith (fun d v => v - m1 d) (List.range' 1 b.length) b)).flatten
      = List.zipWith (fun k v => v - m2 k) (doyKeys lens) vals := by
  intro lens
  induction lens with
  | nil =>
    intro vals _ _
    rw [show doyKeys [] = [] from rfl]
    rfl
  | cons L ls ih =>
    intro vals h hm
    have hL : L ≤ vals.length := by
      rw [List.sum_cons] at h
      omega
    simp only [splitBlocks, List.map_cons, List.flatten_cons]
    have hlen : (vals.take L).length = L := by
      rw [List.length_take]
      omega
    have hkeys : doyKeys (L :: ls) = List.range' 1 L ++ doyKeys ls := by
      simp [doyKeys]
    rw [hlen, hkeys]
    conv_rhs => rw [← List.take_append_drop L vals]
    rw [List.zipWith_append _ _ _ _ _ (by rw [List.length_range', hlen])]
    congr 1
    · rw [zipWith_sub_congr m1 m2 (List.range' 1 L) (vals.take L) ?_]
      intro d hd
      rw [List.mem_range'] at hd
      obtain ⟨i, hi, rfl⟩ := hd
      exact hm _ L (List.mem_cons_self _ _) (by omega) (by omega)
    · rw [ih (vals.drop L) ?_ ?_]
      · rw [List.length_drop]
        rw [List.sum_cons] at h
        omega
      · intro d L2 hL2 h1 h2
        exact hm d L2 (List.mem_cons_of_mem _ hL2) h1 h2

theorem lookup_range'_map (f : ℕ → ℚ) :
    ∀ (M s d : ℕ), s ≤ d → d < s + M →
    List.lookup d ((List.range' s M).map (fun k => (k, f k))) = some (f d) := by
  intro M
  induction M with
  | zero => intro s d h1 h2; omega
  | succ M ih =>
    intro s d h1 h2
    rw [List.range'_succ, List.map_cons, List.lookup_cons]
    by_cases hd : d = s
    · subst hd
      simp
    · have hne : (d == s) = false := by
        simp [hd]
      rw [hne]
      exact ih (s + 1) d (by omega) (by omega)

/-- C5: for every chunked daily series spanning whole years, subtracting the
blocked per-day-of-year mean climatology from the grouped series (the
wrapper's broadcasting subtraction) equals the anomaly computed through the
underlying library's groupby mean and subtraction. -/
theorem blocked_groupby_climatology (da : DSeries) (y0 n : ℕ)
    (h1 : 1 ≤ n) (ht : da.time = wholeYearDates y0 n) :
    ∃ g, blocked_groupby da da.dimName = .ok g ∧
      g.subOp g.meanOp = refGroupbyDelta (da.time.map doyKey) da.vals := by
  refine ⟨_, blocked_groupby_wholeYears da y0 n h1 ht, ?_⟩
  have hsum : (yearLenList y0 n).sum = da.vals.length := by
    have h2 := da.hlen
    rw [ht, length_wholeYearDates] at h2
    omega
  unfold Grouped.subOp refGroupbyDelta
  rw [ht, map_doy_wholeYearDates]
  refine subOp_structure _ _ (yearLenList y0 n) da.vals (by omega) ?_
  intro d L hL hd1 hdL
  have hdM : d ≤ (yearLenList y0 n).foldr Nat.max 0 :=
    ((le_foldr_max (yearLenList y0 n) d).mpr ⟨⟨L, hL, hdL⟩, hd1⟩).1
  show (((Grouped.mk (splitBlocks (yearLenList y0 n) da.vals)
      ((yearLenList y0 n).foldr Nat.max 0)).meanOp).lookup d).getD 0 = _
  unfold Grouped.meanOp Grouped.reduceWith
  rw [lookup_range'_map (fun d => lmean (colAt
      (splitBlocks (yearLenList y0 n) da.vals) (d - 1)))
    ((yearLenList y0 n).foldr Nat.max 0) 1 d hd1 (by omega)]
  rw [refGroup_eq_colAt (yearLenList y0 n) da.vals d hd1 (by omega)]
  rfl

/-- Witness for C5 at the concrete whole-year series `exSeries`. -/
theorem blocked_groupby_climatology_witness :
    ∃ g, blocked_groupby exSeries exSeries.dimName = .ok g ∧
      g.subOp g.meanOp =
        refGroupbyDelta (exSeries.time.map doyKey) exSeries.vals :=
  blocked_groupby_climatology exSeries 2001 1 (by omega) rfl

/-! ### The non-reducing apply -/

theorem countPrior_zero (blocks : List (List ℚ)) (p : ℕ) :
    countPrior blocks 0 p = 0 := rfl

theorem countPrior_succ (b0 : List ℚ) (bs : List (List ℚ)) (j p : ℕ) :
    countPrior (b0 :: bs) (j + 1) p =
      (if p < b0.length then 1 else 0) + countPrior bs j p := by
  unfold countPrior
  rw [List.take_succ_cons, List.filter_cons]
  by_cases hp : p < b0.length
  · simp [hp]
    omega
  · simp [hp]

theorem colAt_countPrior :
    ∀ (blocks : List (List ℚ)) (j p : ℕ) (b : List ℚ),
    blocks[j]? = some b → p < b.length →
    (colAt blocks p)[countPrior blocks j p]? = b[p]? := by
  intro blocks
  induction blocks with
  | nil =>
    intro j p b hj
    simp at hj
  | cons b0 bs ih =>
    intro j p b hj hp
    cases j with
    | zero =>
      have hb : b0 = b := by simpa using hj
      subst hb
      have hv : b0[p]? = some b0[p] := List.getElem?_eq_getElem hp
      rw [colAt_cons_some _ _ _ _ hv, countPrior_zero]
      simp [hv]
    | succ j =>
      have hj2 : bs[j]? = some b := by simpa using hj
      rw [countPrior_succ]
      cases hb0 : b0[p]? with
      | some v =>
        have hlt : p < b0.length := by
          by_contra hcon
          rw [List.getElem?_eq_none (by omega)] at hb0
          exact Option.noConfusion hb0
        rw [colAt_cons_some _ _ _ _ hb0, if_pos hlt]
        rw [show 1 + countPrior bs j p = countPrior bs j p + 1 by omega]
        rw [List.getElem?_cons_succ]
        exact ih j p b hj2 hp
      | none =>
        have hge : ¬ p < b0.length := by
          intro hcon
          rw [List.getElem?_eq_getElem hcon] at hb0
          exact Option.noConfusion hb0
        rw [colAt_cons_none _ _ _ hb0, if_neg hge, Nat.zero_add]
        exact ih j p b hj2 hp

theorem enumFrom_map_eq_map {α β : Type} (l : List α) :
    ∀ (s : ℕ) (F : ℕ × α → β) (G : α → β),
    (∀ j b, l[j]? = some b → F (s + j, b) = G b) →
    (List.enumFrom s l).map F = l.map G := by
  induction l with
  | nil => intro s F G _; rfl
  | cons a l ih =>
    intro s F G h
    rw [List.enumFrom, List.map_cons, List.map_cons]
    congr 1
    · have := h 0 a (by simp)
      simpa using this
    · refine ih (s + 1) F G ?_
      intro j b hj
      have := h (j + 1) b (by simpa using hj)
      rw [show s + (j + 1) = s + 1 + j by omega] at this
      exact this

theorem block_map_double (blocks : List (List ℚ)) (j : ℕ) (b : List ℚ)
    (hj : blocks[j]? = some b) :
    (List.range b.length).map (fun p =>
        ((colAt blocks p).map (fun x => x * 2)).getD
          (countPrior blocks j p) 0) = b.map (fun x => x * 2) := by
  refine List.ext_getElem (by simp) ?_
  intro p hp1 hp2
  rw [List.length_map, List.length_range] at hp1
  rw [List.getElem_map, List.getElem_range]
  rw [List.getD_eq_getElem?_getD, List.getElem?_map,
    colAt_countPrior blocks j p b hj hp1,
    List.getElem?_eq_getElem hp1]
  rw [List.getElem_map]
  rfl

theorem flatten_splitBlocks :
    ∀ (lens : List ℕ) (vals : List ℚ), lens.sum = vals.length →
    (splitBlocks lens vals).flatten = vals := by
  intro lens
  induction lens with
  | nil =>
    intro vals h
    rw [List.sum_nil] at h
    rw [show splitBlocks [] vals = [] from rfl]
    exact (List.eq_nil_of_length_eq_zero h.symm).symm ▸ rfl
  | cons L ls ih =>
    intro vals h
    rw [List.sum_cons] at h
    rw [show splitBlocks (L :: ls) vals =
        vals.take L :: splitBlocks ls (vals.drop L) from rfl,
      List.flatten_cons, ih (vals.drop L) (by rw [List.length_drop]; omega),
      List.take_append_drop]

/-- C6: applying the non-reducing callable `x ↦ x * 2` through the blocked
groupby wrapper returns exactly the elementwise doubling of the ungrouped
series, with the same length and alignment. -/
theorem blocked_groupby_apply_double (da : DSeries) (y0 n : ℕ)
    (h1 : 1 ≤ n) (ht : da.time = wholeYearDates y0 n) :
    ∃ g, blocked_groupby da da.dimName = .ok g ∧
      g.applyOp (fun xs => xs.map (fun x => x * 2)) =
        da.vals.map (fun x => x * 2) := by
  refine ⟨_, blocked_groupby_wholeYears da y0 n h1 ht, ?_⟩
  have hsum : (yearLenList y0 n).sum = da.vals.length := by
    have h2 := da.hlen
    rw [ht, length_wholeYearDates] at h2
    omega
  unfold Grouped.applyOp
  rw [show List.enum = List.enumFrom 0 from rfl]
  rw [enumFrom_map_eq_map _ 0 _
    (fun b => b.map (fun x => x * 2)) ?_]
  · rw [← List.map_flatten, flatten_splitBlocks (yearLenList y0 n) da.vals hsum]
  · intro j b hj
    rw [Nat.zero_add]
    exact block_map_double (splitBlocks (yearLenList y0 n) da.vals) j b hj

/-- Witness for C6 at the concrete whole-year series `exSeries`. -/
theorem blocked_groupby_apply_double_witness :
    ∃ g, blocked_groupby exSeries exSeries.dimName = .ok g ∧
      g.applyOp (fun xs => xs.map (fun x => x * 2)) =
        exSeries.vals.map (fun x => x * 2) :=
  blocked_groupby_apply_double exSeries 2001 1 (by omega) rfl

/-! ### Error handling of the blocked operations -/

/-- C2: both blocked operations validate their input eagerly and raise: for a
grouping/resampling name that is not a coordinate of the array, for a time
axis with a gap (not regular), for a groupby whose time span does not align
with year boundaries, and for a resample whose sample count does not evenly
divide the axis length. -/
theorem blocked_safety (da : DSeries) (axis : String) (n : ℕ) :
    ((axis ≠ da.dimName ∨ regular da.time = false ∨ ¬ n ∣ da.time.length) →
      isError (blocked_resample da axis n) = true) ∧
    ((axis ≠ da.dimName ∨ regular da.time = false ∨
        spansWholeYears da.time = false) →
      isError (blocked_groupby da axis) = true) := by
  constructor
  · intro h
    unfold blocked_resample
    by_cases h1 : axis = da.dimName
    · rw [if_pos h1]
      by_cases h2 : regular da.time = true
      · rw [if_pos h2]
        have h3 : ¬ n ∣ da.time.length := by
          rcases h with hc | hc | hc
          · exact absurd h1 hc
          · rw [h2] at hc; exact Bool.noConfusion hc
          · exact hc
        rw [if_neg h3]
        rfl
      · rw [if_neg h2]
        rfl
    · rw [if_neg h1]
      rfl
  · intro h
    unfold blocked_groupby
    by_cases h1 : axis = da.dimName
    · rw [if_pos h1]
      by_cases h2 : regular da.time = true
      · rw [if_pos h2]
        have h3 : ¬ spansWholeYears da.time = true := by
          rcases h with hc | hc | hc
          · exact absurd h1 hc
          · rw [h2] at hc; exact Bool.noConfusion hc
          · rw [hc]; exact Bool.noConfusion
        rw [if_neg h3]
        rfl
      · rw [if_neg h2]
        rfl
    · rw [if_neg h1]
      rfl

set_option maxRecDepth 8192 in
/-- Witness for C2: asking for the non-existent coordinate `x` on the
concrete series `exSeries` makes both operations raise, and a sample count of
24, which does not divide the 365-day axis, makes the resample raise. -/
theorem blocked_safety_witness :
    isError (blocked_resample exSeries "x" 24) = true ∧
    isError (blocked_groupby exSeries "x") = true ∧
    isError (blocked_resample exSeries "time" 24) = true := by
  refine ⟨(blocked_safety exSeries "x" 24).1 (Or.inl (by decide)),
    (blocked_safety exSeries "x" 24).2 (Or.inl (by decide)),
    (blocked_safety exSeries "time" 24).1 (Or.inr (Or.inr ?_))⟩
  intro hdvd
  have : (exSeries.time).length = 365 := by decide
  rw [this] at hdvd
  omega

end Climtas
